import Mathlib

/-!
Verification development for the `ccsh` shell (`src/main.c`, the documented
variant of the command execution and job-control engine).

Lines of input and tokens are modelled as `List Char`.  The C code's
fixed-size buffers are modelled as unbounded strings except where the
source performs an explicit bounded copy (`strncpy` into the 64-byte alias
name field, the 1024-byte alias value and job command fields), which is
modelled by `List.take`.  Interaction with the operating system (process
exit observation, `glob(3)` results, `chdir` success, environment
variables, `fork` pids) is modelled by an `Oracle` record of pure
functions; the engine's externally visible actions (messages printed,
processes spawned, blocking waits) are recorded as a list of `Eff` values.
-/

set_option autoImplicit false

/-- MAX_JOBS from `src/main.c`. -/
def MAX_JOBS : Nat := 64

/-- MAX_ALIASES from `src/main.c`. -/
def MAX_ALIASES : Nat := 64

/-- Job structure: `{ pid_t pid; char command[1024]; }`. -/
structure Job where
  pid : Nat
  command : List Char
  deriving DecidableEq, Repr

/-- An alias table entry: stored name and value (`char name[64]; char value[1024];`). -/
abbrev AliasEntry := List Char × List Char

/-- Externally visible actions of the engine, in program order. -/
inductive Eff where
  /-- `printf`/`fprintf` of user-visible text. -/
  | msg (text : List Char)
  /-- `perror(tag)`: an OS error report with the given prefix tag. -/
  | perror (tag : List Char)
  /-- a `fork`+`execvp` of an external command with the given argument
      vector and redirections. -/
  | spawned (argv : List (List Char)) (infile outfile : Option (List Char))
      (append background : Bool)
  /-- a blocking `waitpid(pid, ..., 0)`. -/
  | waited (pid : Nat)
  /-- invocation of the built-in `grep` with the given argument vector
      (its file scanning is outside the modelled state). -/
  | grepRun (argv : List (List Char))
  /-- invocation of the built-in `which` on the given name
      (its PATH probing is outside the modelled state). -/
  | whichRun (name : List Char)
  deriving DecidableEq, Repr

/-- The engine's mutable state: job table, alias table, working directory. -/
structure ShellState where
  jobs : List Job
  aliases : List AliasEntry
  cwd : List Char
  deriving DecidableEq, Repr

/-- The operating-system environment the engine consults, as pure oracles:
`exited pid` is whether `waitpid(pid, ..., WNOHANG)` reports the process
finished, `globFn pat` the (sorted) match list a successful `glob(3)` call
returns (`[]` standing for `GLOB_NOMATCH`), `chdirOk p` whether `chdir(p)`
succeeds, `home`/`pathEnv` the `HOME`/`PATH` variables, `newPid` the pid
`fork` returns, `forkOk` whether `fork` succeeds. -/
structure Oracle where
  exited : Nat → Bool
  globFn : List Char → List (List Char)
  chdirOk : List Char → Bool
  home : Option (List Char)
  pathEnv : Option (List Char)
  newPid : Nat
  forkOk : Bool

/-! ### Job table (`add_job`, `check_background_jobs`, `list_jobs`) -/

/-- `add_job`: append when under capacity, silently drop otherwise
(the command text is copied through a 1024-byte buffer). -/
def add_job (jobs : List Job) (pid : Nat) (cmd : List Char) : List Job :=
  if jobs.length < MAX_JOBS then jobs ++ [⟨pid, cmd.take 1023⟩] else jobs

/-- `check_background_jobs`: walk the job table once, left to right; every
job whose process has exited is reported with a `[done]` line and removed
(the C loop shifts the remaining entries down and re-checks the index,
which visits each entry exactly once in order). -/
def check_background_jobs (exited : Nat → Bool) : List Job → List Job × List Eff
  | [] => ([], [])
  | j :: rest =>
    let r := check_background_jobs exited rest
    if exited j.pid then
      (r.1, Eff.msg ("[done] ".toList ++ j.command) :: r.2)
    else
      (j :: r.1, r.2)

/-- `list_jobs`: one line per tracked job, or a placeholder when empty. -/
def list_jobs (jobs : List Job) : List Eff :=
  if jobs.length = 0 then [Eff.msg "No background jobs.".toList]
  else jobs.enum.map fun ij =>
    Eff.msg ("[".toList ++ (toString ij.1).toList ++ "] ".toList ++
      (toString ij.2.pid).toList ++ " ".toList ++ ij.2.command)

/-! ### Alias table (`add_alias`, `remove_alias`, `get_alias_value`) -/

/-- The update loop at the start of `add_alias`: overwrite the value of the
first entry whose stored name equals `name` (`strncpy` bounded by the
1024-byte value field); `none` when no entry matches. -/
def update_alias : List AliasEntry → List Char → List Char → Option (List AliasEntry)
  | [], _, _ => none
  | (n, v) :: rest, name, value =>
    if n = name then some ((n, value.take 1023) :: rest)
    else ((n, v) :: ·) <$> update_alias rest name value

/-- `add_alias`: upsert.  An existing name is overwritten in place; a new
name is appended when under `MAX_ALIASES`, else the table is unchanged and
`Alias limit reached.` is printed (name bounded by 64 bytes, value by
1024 bytes). -/
def add_alias (al : List AliasEntry) (name value : List Char) :
    List AliasEntry × List Eff :=
  match update_alias al name value with
  | some al2 => (al2, [])
  | none =>
    if al.length < MAX_ALIASES then
      (al ++ [(name.take 63, value.take 1023)], [])
    else
      (al, [Eff.msg "Alias limit reached.".toList])

/-- `remove_alias`: remove the first entry with the given name, shifting the
rest down; report `Alias not found` otherwise. -/
def remove_alias : List AliasEntry → List Char → List AliasEntry × List Eff
  | [], name => ([], [Eff.msg ("Alias not found: ".toList ++ name)])
  | (n, v) :: rest, name =>
    if n = name then (rest, [])
    else
      let r := remove_alias rest name
      ((n, v) :: r.1, r.2)

/-- `get_alias_value`: first-match lookup. -/
def get_alias_value : List AliasEntry → List Char → Option (List Char)
  | [], _ => none
  | (n, v) :: rest, name => if n = name then some v else get_alias_value rest name

/-! ### Tokenizer (`strtok(input, " ")` loops) -/

/-- One `strtok(s, " ")` call on a fresh buffer: skip leading spaces; the
token is the maximal run of non-space characters; the saved rest is the
remainder with the single terminating delimiter consumed (when present).
Returns `none` on an empty or all-space buffer. -/
def strtok1 : List Char → Option (List Char × List Char)
  | [] => none
  | c :: cs =>
    if c = ' ' then strtok1 cs
    else some ((c :: cs).takeWhile (· ≠ ' '), ((c :: cs).dropWhile (· ≠ ' ')).drop 1)

/-- The full `strtok(_, " ")` loop: the line's space-separated tokens, in
order, with empty tokens never produced. -/
def tokenizeAux : List Char → List Char → List (List Char)
  | [], acc => if acc = [] then [] else [acc.reverse]
  | c :: cs, acc =>
    if c = ' ' then
      if acc = [] then tokenizeAux cs [] else acc.reverse :: tokenizeAux cs []
    else tokenizeAux cs (c :: acc)

/-- Tokenize a line on spaces (the delimiter set of both `strtok` loops in
the engine is the single character `' '`). -/
def tokenize (line : List Char) : List (List Char) :=
  tokenizeAux line []

/-! ### Redirection/background parser (`parse_command`) -/

/-- ParsedCommand: argument vector, background flag, redirection targets. -/
structure Parsed where
  args : List (List Char)
  background : Bool
  infile : Option (List Char)
  outfile : Option (List Char)
  append : Bool
  deriving DecidableEq, Repr

/-- The token-consumption loop of `parse_command`: `<`, `>`, `>>` take the
following token (when present) as their target — `*infile = strtok(NULL, " ")`
stores the null pointer, i.e. `none`, when the operator is the final
token — `&` sets the background flag, and every other token is appended to
the argument vector. -/
def parseLoop : List (List Char) → Parsed → Parsed
  | [], acc => acc
  | t :: rest, acc =>
    if t = "<".toList then
      match rest with
      | [] => { acc with infile := none }
      | op :: rest2 => parseLoop rest2 { acc with infile := some op }
    else if t = ">".toList then
      match rest with
      | [] => { acc with outfile := none, append := false }
      | op :: rest2 => parseLoop rest2 { acc with outfile := some op, append := false }
    else if t = ">>".toList then
      match rest with
      | [] => { acc with outfile := none, append := true }
      | op :: rest2 => parseLoop rest2 { acc with outfile := some op, append := true }
    else if t = "&".toList then
      parseLoop rest { acc with background := true }
    else
      parseLoop rest { acc with args := acc.args ++ [t] }

/-- `parse_command` on an already tokenized line. -/
def parse_command (toks : List (List Char)) : Parsed :=
  parseLoop toks ⟨[], false, none, none, false⟩

/-! ### Alias expansion (`expand_alias`) -/

/-- `expand_alias`: the first `strtok` token of the line is looked up in
the alias table; on a hit the output is the alias value, followed — when
`strtok(NULL, "")` yields a non-null rest — by a space and the rest of the
line verbatim; on a miss the line is copied unchanged; an empty or
all-space line produces the empty string. -/
def expand_alias (al : List AliasEntry) (line : List Char) : List Char :=
  match strtok1 line with
  | none => []
  | some (tok, rest) =>
    match get_alias_value al tok with
    | some v => if rest = [] then v else v ++ ' ' :: rest
    | none => line

/-! ### Glob expansion (`expand_globs`) -/

/-- A token is globbed iff it contains `*` or `?`. -/
def hasWild (t : List Char) : Bool := t.contains '*' || t.contains '?'

/-- The running state of `expand_globs`: the output vector built so far and
the contents of the single `glob_t results` structure, which accumulates
across calls because `GLOB_APPEND` is passed whenever the output vector is
already non-empty. -/
structure GlobState where
  out : List (List Char)
  results : List (List Char)
  deriving DecidableEq, Repr

/-- One iteration of the `expand_globs` loop.  A non-wildcard token is
copied through.  A wildcard token is globbed: with `GLOB_NOMATCH` the
literal token is copied through; on success the code appends *every* entry
of `results.gl_pathv` — which, under `GLOB_APPEND`, still contains the
matches of all earlier successful calls — to the output. -/
def expand_globs_step (globFn : List Char → List (List Char))
    (st : GlobState) (arg : List Char) : GlobState :=
  if hasWild arg then
    let m := globFn arg
    let newResults := if st.out.length > 0 then st.results ++ m else m
    if m = [] then { out := st.out ++ [arg], results := newResults }
    else { out := st.out ++ newResults, results := newResults }
  else { out := st.out ++ [arg], results := st.results }

/-- `expand_globs` over a whole argument vector. -/
def expand_globs (globFn : List Char → List (List Char))
    (args : List (List Char)) : List (List Char) :=
  (args.foldl (expand_globs_step globFn) ⟨[], []⟩).out

/-- Modelled from the spec (§4.4), for comparison with `expand_globs`:
each wildcard token is replaced by its own matches, in order, at its
position; a no-match wildcard token passes through literally; non-wildcard
tokens are preserved at their relative positions. -/
def spec_expand_globs (globFn : List Char → List (List Char))
    (args : List (List Char)) : List (List Char) :=
  args.flatMap fun a =>
    if hasWild a then (if globFn a = [] then [a] else globFn a) else [a]

/-! ### `atoi` and the `fg` built-in -/

/-- The digit-reading loop of `atoi`. -/
def readDigits : List Char → Nat → Nat
  | [], acc => acc
  | c :: cs, acc =>
    if c.isDigit then readDigits cs (acc * 10 + (c.toNat - 48)) else acc

/-- C `atoi`: skip leading blanks, optional sign, leading decimal digits. -/
def atoi (s : List Char) : Int :=
  let s1 := s.dropWhile fun c => c = ' ' || c = '\t'
  match s1 with
  | '-' :: rest => -(readDigits rest 0 : Int)
  | '+' :: rest => (readDigits rest 0 : Int)
  | _ => (readDigits s1 0 : Int)

/-- The C shift-removal loop (`for (j = id; j < count-1; j++) jobs[j] = jobs[j+1]`). -/
def remove_at : List Job → Nat → List Job
  | [], _ => []
  | _ :: rest, 0 => rest
  | j :: rest, n + 1 => j :: remove_at rest n

/-- The `fg` dispatch block of `main` (given `args[1]`): `atoi` the
argument; in range, block on the job's pid and shift it out of the table;
out of range, report `Invalid job ID` and leave the table alone. -/
def fgCommand (jobs : List Job) (arg : List Char) : List Job × List Eff :=
  let id := atoi arg
  if 0 ≤ id ∧ id < (jobs.length : Int) then
    (remove_at jobs id.toNat, [Eff.waited (jobs.getD id.toNat ⟨0, []⟩).pid])
  else
    (jobs, [Eff.msg ("Invalid job ID: ".toList ++ arg)])

/-! ### `expand_tilde` and the `cd` built-in -/

/-- `expand_tilde`: a leading `~` becomes `HOME` (error when `HOME` is
unset or empty, or for `~username`); any other path is copied unchanged. -/
def expand_tilde (home : Option (List Char)) (path : List Char) :
    Except (List Char) (List Char) :=
  match path with
  | [] => Except.ok []
  | c :: rest =>
    if c = '~' then
      match home with
      | none => Except.error "cd: HOME environment variable not set".toList
      | some h =>
        if h = [] then Except.error "cd: HOME environment variable not set".toList
        else if rest = [] then Except.ok h
        else if rest.head? = some '/' then Except.ok (h ++ rest)
        else Except.error "cd: ~username not supported".toList
    else Except.ok (c :: rest)

/-- The `cd` dispatch block of `main`: target is `args[1]` or `~`; on
successful tilde expansion `chdir` is attempted, reporting `perror("cd")`
on failure; the working directory changes only when `chdir` succeeds. -/
def cdCommand (o : Oracle) (cwd : List Char) (arg : Option (List Char)) :
    List Char × List Eff :=
  let target := arg.getD "~".toList
  match expand_tilde o.home target with
  | Except.error e => (cwd, [Eff.msg e])
  | Except.ok p =>
    if o.chdirOk p then (p, []) else (cwd, [Eff.perror "cd".toList])

/-! ### Built-in dispatch and the main loop body -/

/-- The quote-stripping step of the `alias` built-in: a leading single or
double quote is dropped, and then a trailing single or double quote (when
the remainder is non-empty) is dropped. -/
def stripQuotes (v : List Char) : List Char :=
  match v with
  | [] => []
  | c :: rest =>
    if c = Char.ofNat 39 || c = '"' then
      if rest ≠ [] && (rest.getLast? = some (Char.ofNat 39) || rest.getLast? = some '"') then
        rest.dropLast
      else rest
    else c :: rest

/-- The `name=value` split of the `alias` built-in: `strchr(args[1], '=')`
must find `=` past the first character; the name is everything before the
first `=`, the value everything after it. -/
def splitEq (a : List Char) : Option (List Char × List Char) :=
  let name := a.takeWhile (· ≠ '=')
  match a.dropWhile (· ≠ '=') with
  | '=' :: value => if name = [] then none else some (name, value)
  | _ => none

/-- Stand-in for the static `print_help` text. -/
def helpText : List Char := "ccsh - Compact C Shell".toList

/-- The result of one main-loop iteration: updated state, visible effects,
and whether the loop breaks (`exit`). -/
structure StepResult where
  state : ShellState
  effs : List Eff
  exitLoop : Bool
  deriving DecidableEq, Repr

/-- The per-line work of `main` after the background-job poll: alias
expansion, parsing, built-in dispatch in source order (`exit`, `cd`, `pwd`,
`jobs`, `fg`-with-argument, `alias`, `unalias`, `help`, `path`, `which`,
`grep`), and otherwise glob expansion and external launch.  A background
launch prints `[job_count] pid` (with the pre-insertion count) and then
registers the raw input line via `add_job`. -/
def dispatchLine (o : Oracle) (s : ShellState) (line : List Char) : StepResult :=
  let expanded := expand_alias s.aliases line
  let p := parse_command (tokenize expanded)
  match p.args with
  | [] => ⟨s, [], false⟩
  | cmd :: rest =>
    if cmd = "exit".toList then ⟨s, [], true⟩
    else if cmd = "cd".toList then
      let r := cdCommand o s.cwd rest.head?
      ⟨{ s with cwd := r.1 }, r.2, false⟩
    else if cmd = "pwd".toList then ⟨s, [Eff.msg s.cwd], false⟩
    else if cmd = "jobs".toList then ⟨s, list_jobs s.jobs, false⟩
    else if cmd = "fg".toList ∧ rest ≠ [] then
      let r := fgCommand s.jobs (rest.headD [])
      ⟨{ s with jobs := r.1 }, r.2, false⟩
    else if cmd = "alias".toList then
      match rest with
      | [] =>
        ⟨s, s.aliases.map (fun nv =>
          Eff.msg ("alias ".toList ++ nv.1 ++ ('=' :: Char.ofNat 39 :: nv.2) ++ [Char.ofNat 39])), false⟩
      | a :: _ =>
        match splitEq a with
        | some nv =>
          let r := add_alias s.aliases nv.1 (stripQuotes nv.2)
          ⟨{ s with aliases := r.1 }, r.2, false⟩
        | none => ⟨s, [Eff.msg ("Usage: alias name=".toList ++ [Char.ofNat 39] ++ "value".toList ++ [Char.ofNat 39])], false⟩
    else if cmd = "unalias".toList then
      match rest with
      | [] => ⟨s, [Eff.msg "Usage: unalias name".toList], false⟩
      | a :: _ =>
        let r := remove_alias s.aliases a
        ⟨{ s with aliases := r.1 }, r.2, false⟩
    else if cmd = "help".toList then ⟨s, [Eff.msg helpText], false⟩
    else if cmd = "path".toList then
      match o.pathEnv with
      | some pe => ⟨s, [Eff.msg ("PATH=".toList ++ pe)], false⟩
      | none => ⟨s, [Eff.msg "PATH environment variable not set".toList], false⟩
    else if cmd = "which".toList then
      match rest with
      | [] => ⟨s, [Eff.msg "Usage: which <command>".toList], false⟩
      | a :: _ => ⟨s, [Eff.whichRun a], false⟩
    else if cmd = "grep".toList then ⟨s, [Eff.grepRun p.args], false⟩
    else
      let expArgs := expand_globs o.globFn p.args
      if o.forkOk then
        let sp := Eff.spawned expArgs p.infile p.outfile p.append p.background
        if p.background then
          ⟨{ s with jobs := add_job s.jobs o.newPid line },
           [sp, Eff.msg ("[".toList ++ (toString s.jobs.length).toList ++
             "] ".toList ++ (toString o.newPid).toList)], false⟩
        else ⟨s, [sp, Eff.waited o.newPid], false⟩
      else ⟨s, [Eff.perror "fork".toList], false⟩

/-- One iteration of the `while (1)` loop of `main`, from the point where
the line has been read (newline already stripped): an empty line is
skipped outright (before the poll); otherwise the background-job poll runs
first and the line is then dispatched against the polled state. -/
def mainStep (o : Oracle) (s : ShellState) (line : List Char) : StepResult :=
  if line = [] then ⟨s, [], false⟩
  else
    let polled := check_background_jobs o.exited s.jobs
    let r := dispatchLine o { s with jobs := polled.1 } line
    ⟨r.state, polled.2 ++ r.effs, r.exitLoop⟩

/-! ### Job-operation sequences (for the capacity invariant) -/

/-- An abstract operation on the job table: a background registration or a
non-blocking poll. -/
inductive JobOp where
  | register (pid : Nat) (cmd : List Char)
  | poll (exited : Nat → Bool)

/-- Run a sequence of register/poll operations on a job table. -/
def runOps : List JobOp → List Job → List Job
  | [], js => js
  | JobOp.register p c :: rest, js => runOps rest (add_job js p c)
  | JobOp.poll ex :: rest, js => runOps rest (check_background_jobs ex js).1

/-! ### Helper lemmas -/

theorem check_bg_spec (ex : Nat → Bool) (js : List Job) :
    check_background_jobs ex js =
      (js.filter (fun j => !(ex j.pid)),
       (js.filter (fun j => ex j.pid)).map
         (fun j => Eff.msg ("[done] ".toList ++ j.command))) := by
  induction js with
  | nil => rfl
  | cons j rest ih =>
    simp only [check_background_jobs, ih, List.filter_cons]
    cases h : ex j.pid <;> simp [h]

theorem check_bg_none (ex : Nat → Bool) (js : List Job)
    (h : ∀ j ∈ js, ex j.pid = false) :
    check_background_jobs ex js = (js, []) := by
  rw [check_bg_spec]
  have h1 : js.filter (fun j => !(ex j.pid)) = js := by
    rw [List.filter_eq_self]; intro j hj; simp [h j hj]
  have h2 : js.filter (fun j => ex j.pid) = [] := by
    rw [List.filter_eq_nil_iff]; intro j hj; simp [h j hj]
  rw [h1, h2]
  rfl

theorem add_job_length_le (js : List Job) (p : Nat) (c : List Char)
    (h : js.length ≤ MAX_JOBS) : (add_job js p c).length ≤ MAX_JOBS := by
  unfold add_job
  split
  · simpa using by omega
  · exact h

theorem add_job_full (js : List Job) (p : Nat) (c : List Char)
    (h : MAX_JOBS ≤ js.length) : add_job js p c = js := by
  unfold add_job
  split
  · omega
  · rfl

theorem runOps_length_le (ops : List JobOp) (js : List Job)
    (h : js.length ≤ MAX_JOBS) : (runOps ops js).length ≤ MAX_JOBS := by
  induction ops generalizing js with
  | nil => exact h
  | cons op rest ih =>
    cases op with
    | register p c => exact ih _ (add_job_length_le js p c h)
    | poll ex =>
      refine ih _ ?_
      rw [check_bg_spec]
      exact le_trans (List.length_filter_le _ _) h

theorem update_alias_absent (al : List AliasEntry) (name value : List Char)
    (h : name ∉ al.map Prod.fst) : update_alias al name value = none := by
  induction al with
  | nil => rfl
  | cons nv rest ih =>
    obtain ⟨n, v⟩ := nv
    simp only [List.map_cons, List.mem_cons, not_or] at h
    have hne : ¬ n = name := fun hh => h.1 hh.symm
    simp [update_alias, hne, ih h.2]

theorem update_alias_found (pre suf : List AliasEntry) (name v0 value : List Char)
    (h : name ∉ pre.map Prod.fst) :
    update_alias (pre ++ (name, v0) :: suf) name value =
      some (pre ++ (name, value.take 1023) :: suf) := by
  induction pre with
  | nil => simp [update_alias]
  | cons nv rest ih =>
    obtain ⟨n, v⟩ := nv
    simp only [List.map_cons, List.mem_cons, not_or] at h
    have hne : ¬ n = name := fun hh => h.1 hh.symm
    simp [update_alias, hne, ih h.2]

theorem tokenizeAux_append_space (xs : List Char) (ys : List Char) :
    ∀ acc, tokenizeAux (xs ++ ' ' :: ys) acc =
      tokenizeAux xs acc ++ tokenizeAux ys [] := by
  induction xs with
  | nil =>
    intro acc
    by_cases h : acc = [] <;> simp [tokenizeAux, h]
  | cons c cs ih =>
    intro acc
    by_cases hc : c = ' '
    · by_cases h : acc = [] <;> simp [tokenizeAux, hc, h, ih]
    · simp [tokenizeAux, hc, ih]

theorem tokenize_append_space (xs ys : List Char) :
    tokenize (xs ++ ' ' :: ys) = tokenize xs ++ tokenize ys :=
  tokenizeAux_append_space xs ys []

theorem tokenizeAux_spaces (l : List Char) (h : ∀ c ∈ l, c = ' ') :
    tokenizeAux l [] = [] := by
  induction l with
  | nil => rfl
  | cons c cs ih =>
    have hc : c = ' ' := h c (by simp)
    simp only [tokenizeAux, if_pos hc, if_pos rfl]
    exact ih (fun d hd => h d (by simp [hd]))

theorem tokenize_spaces (l : List Char) (h : ∀ c ∈ l, c = ' ') :
    tokenize l = [] :=
  tokenizeAux_spaces l h

theorem strtok1_spaces (l : List Char) (h : ∀ c ∈ l, c = ' ') :
    strtok1 l = none := by
  induction l with
  | nil => rfl
  | cons c cs ih =>
    have hc : c = ' ' := h c (by simp)
    simp only [strtok1, if_pos hc]
    exact ih (fun d hd => h d (by simp [hd]))

/-- A token is a redirection operator. -/
def isRedirOp (t : List Char) : Prop :=
  t = "<".toList ∨ t = ">".toList ∨ t = ">>".toList

instance (t : List Char) : Decidable (isRedirOp t) := by
  unfold isRedirOp; infer_instance

theorem parseLoop_concat_lt (pre : List (List Char))
    (h : ∀ t ∈ pre, ¬ isRedirOp t) :
    ∀ acc, parseLoop (pre ++ ["<".toList]) acc =
      { parseLoop pre acc with infile := none } := by
  induction pre with
  | nil => intro acc; rfl
  | cons t rest ih =>
    intro acc
    have hop := h t (by simp)
    have h1 : ¬ t = "<".toList := fun hh => hop (Or.inl hh)
    have h2 : ¬ t = ">".toList := fun hh => hop (Or.inr (Or.inl hh))
    have h3 : ¬ t = ">>".toList := fun hh => hop (Or.inr (Or.inr hh))
    have hrest : ∀ u ∈ rest, ¬ isRedirOp u := fun u hu => h u (by simp [hu])
    rw [List.cons_append, parseLoop.eq_def, parseLoop.eq_def]
    dsimp only
    simp only [if_neg h1, if_neg h2, if_neg h3]
    by_cases h4 : t = "&".toList
    · simp only [if_pos h4]; exact ih hrest _
    · simp only [if_neg h4]; exact ih hrest _

theorem parseLoop_concat_gt (pre : List (List Char))
    (h : ∀ t ∈ pre, ¬ isRedirOp t) :
    ∀ acc, parseLoop (pre ++ [">".toList]) acc =
      { parseLoop pre acc with outfile := none, append := false } := by
  induction pre with
  | nil => intro acc; rfl
  | cons t rest ih =>
    intro acc
    have hop := h t (by simp)
    have h1 : ¬ t = "<".toList := fun hh => hop (Or.inl hh)
    have h2 : ¬ t = ">".toList := fun hh => hop (Or.inr (Or.inl hh))
    have h3 : ¬ t = ">>".toList := fun hh => hop (Or.inr (Or.inr hh))
    have hrest : ∀ u ∈ rest, ¬ isRedirOp u := fun u hu => h u (by simp [hu])
    rw [List.cons_append, parseLoop.eq_def, parseLoop.eq_def]
    dsimp only
    simp only [if_neg h1, if_neg h2, if_neg h3]
    by_cases h4 : t = "&".toList
    · simp only [if_pos h4]; exact ih hrest _
    · simp only [if_neg h4]; exact ih hrest _

theorem parseLoop_concat_gtgt (pre : List (List Char))
    (h : ∀ t ∈ pre, ¬ isRedirOp t) :
    ∀ acc, parseLoop (pre ++ [">>".toList]) acc =
      { parseLoop pre acc with outfile := none, append := true } := by
  induction pre with
  | nil => intro acc; rfl
  | cons t rest ih =>
    intro acc
    have hop := h t (by simp)
    have h1 : ¬ t = "<".toList := fun hh => hop (Or.inl hh)
    have h2 : ¬ t = ">".toList := fun hh => hop (Or.inr (Or.inl hh))
    have h3 : ¬ t = ">>".toList := fun hh => hop (Or.inr (Or.inr hh))
    have hrest : ∀ u ∈ rest, ¬ isRedirOp u := fun u hu => h u (by simp [hu])
    rw [List.cons_append, parseLoop.eq_def, parseLoop.eq_def]
    dsimp only
    simp only [if_neg h1, if_neg h2, if_neg h3]
    by_cases h4 : t = "&".toList
    · simp only [if_pos h4]; exact ih hrest _
    · simp only [if_neg h4]; exact ih hrest _

theorem expand_globs_go_plain (globFn : List Char → List (List Char))
    (args : List (List Char))
    (h : ∀ a ∈ args, ¬(hasWild a = true ∧ globFn a ≠ [])) :
    ∀ st : GlobState,
      (args.foldl (expand_globs_step globFn) st).out =
        st.out ++ spec_expand_globs globFn args := by
  induction args with
  | nil => intro st; simp [spec_expand_globs]
  | cons a rest ih =>
    intro st
    have ha := h a (by simp)
    have hrest : ∀ b ∈ rest, ¬(hasWild b = true ∧ globFn b ≠ []) :=
      fun b hb => h b (by simp [hb])
    simp only [List.foldl_cons]
    rw [ih hrest]
    by_cases hw : hasWild a = true
    · have hm : globFn a = [] := by
        by_contra hne; exact ha ⟨hw, hne⟩
      simp [expand_globs_step, hw, hm, spec_expand_globs]
    · simp [expand_globs_step, hw, spec_expand_globs]

theorem expand_globs_go_single (globFn : List Char → List (List Char))
    (args : List (List Char))
    (h : args.countP (fun a => hasWild a && !(globFn a).isEmpty) ≤ 1) :
    ∀ out0, (args.foldl (expand_globs_step globFn) ⟨out0, []⟩).out =
      out0 ++ spec_expand_globs globFn args := by
  induction args with
  | nil => intro out0; simp [spec_expand_globs]
  | cons a rest ih =>
    intro out0
    rw [List.countP_cons] at h
    simp only [List.foldl_cons]
    by_cases hw : hasWild a = true
    · by_cases hm : globFn a = []
      · have hpa : (hasWild a && !(globFn a).isEmpty) = false := by simp [hw, hm]
        rw [hpa] at h
        simp only [if_neg Bool.false_ne_true] at h
        have hstep : expand_globs_step globFn ⟨out0, []⟩ a = ⟨out0 ++ [a], []⟩ := by
          simp [expand_globs_step, hw, hm]
        rw [hstep, ih (by omega)]
        simp [spec_expand_globs, hw, hm]
      · have hpa : (hasWild a && !(globFn a).isEmpty) = true := by
          simp [hw, hm]
        rw [hpa, if_pos rfl] at h
        have hcount0 : rest.countP (fun b => hasWild b && !(globFn b).isEmpty) = 0 := by
          omega
        have hrest : ∀ b ∈ rest, ¬(hasWild b = true ∧ globFn b ≠ []) := by
          intro b hb hcontra
          have hz := List.countP_eq_zero.mp hcount0 b hb
          simp only [Bool.and_eq_true, Bool.not_eq_true', List.isEmpty_iff,
            not_and] at hz
          exact absurd (hz hcontra.1) (by simpa using hcontra.2)
        have hstep : expand_globs_step globFn ⟨out0, []⟩ a =
            ⟨out0 ++ globFn a, globFn a⟩ := by
          simp [expand_globs_step, hw, hm]
        rw [hstep, expand_globs_go_plain globFn rest hrest]
        simp [spec_expand_globs, hw, hm]
    · have hpa : (hasWild a && !(globFn a).isEmpty) = false := by simp [hw]
      rw [hpa] at h
      simp only [if_neg Bool.false_ne_true] at h
      have hstep : expand_globs_step globFn ⟨out0, []⟩ a = ⟨out0 ++ [a], []⟩ := by
        simp [expand_globs_step, hw]
      rw [hstep, ih (by omega)]
      simp [spec_expand_globs, hw]

theorem expand_alias_miss (al : List AliasEntry) (line tok rest : List Char)
    (h1 : strtok1 line = some (tok, rest))
    (h2 : get_alias_value al tok = none) :
    expand_alias al line = line := by
  unfold expand_alias
  simp only [h1, h2]

theorem expand_alias_hit (al : List AliasEntry) (line tok rest v : List Char)
    (h1 : strtok1 line = some (tok, rest))
    (h2 : get_alias_value al tok = some v) :
    expand_alias al line = if rest = [] then v else v ++ ' ' :: rest := by
  unfold expand_alias
  simp only [h1, h2]

/-! ### Concrete fixtures for witnesses and counterexamples -/

/-- A benign environment: no process has exited, no glob matches, `chdir`
always succeeds, `fork` succeeds and returns pid 7. -/
def oracle0 : Oracle :=
  ⟨fun _ => false, fun _ => [], fun _ => true,
   some "/home/u".toList, some "/bin".toList, 7, true⟩

/-- A fresh shell state. -/
def state0 : ShellState := ⟨[], [], "/".toList⟩

/-- An environment in which exactly the process with pid 5 has exited. -/
def oracleExit5 : Oracle :=
  { oracle0 with exited := fun p => decide (p = 5) }

/-- A glob environment where `a*` matches `a1` and `b*` matches `b1`. -/
def globAB : List Char → List (List Char) := fun a =>
  if a = "a*".toList then ["a1".toList]
  else if a = "b*".toList then ["b1".toList]
  else []

/-- A job table already at the 64-entry capacity. -/
def jobs64 : List Job := (List.range 64).map fun i => ⟨100 + i, "sleep 9 &".toList⟩

/-- An alias table already at the 64-entry capacity. -/
def aliases64 : List AliasEntry :=
  (List.range 64).map fun i => ((toString i).toList, "v".toList)

/-- Commands not matching any built-in name in the dispatch chain. -/
def notBuiltin (cmd : List Char) : Prop :=
  cmd ≠ "exit".toList ∧ cmd ≠ "cd".toList ∧ cmd ≠ "pwd".toList ∧
  cmd ≠ "jobs".toList ∧ cmd ≠ "alias".toList ∧ cmd ≠ "unalias".toList ∧
  cmd ≠ "help".toList ∧ cmd ≠ "path".toList ∧ cmd ≠ "which".toList ∧
  cmd ≠ "grep".toList

instance (cmd : List Char) : Decidable (notBuiltin cmd) := by
  unfold notBuiltin; infer_instance

theorem mainStep_nonempty (o : Oracle) (s : ShellState) (line : List Char)
    (h : line ≠ []) :
    mainStep o s line =
      ⟨(dispatchLine o { s with jobs := (check_background_jobs o.exited s.jobs).1 } line).state,
       (check_background_jobs o.exited s.jobs).2 ++
         (dispatchLine o { s with jobs := (check_background_jobs o.exited s.jobs).1 } line).effs,
       (dispatchLine o { s with jobs := (check_background_jobs o.exited s.jobs).1 } line).exitLoop⟩ := by
  unfold mainStep
  rw [if_neg h]

theorem dispatchLine_external (o : Oracle) (s : ShellState)
    (line expline : List Char) (cmd : List Char) (restArgs : List (List Char))
    (bg : Bool) (inf outf : Option (List Char)) (app : Bool)
    (hexp : expand_alias s.aliases line = expline)
    (hparse : parse_command (tokenize expline) = ⟨cmd :: restArgs, bg, inf, outf, app⟩)
    (hnb : notBuiltin cmd)
    (hfg : ¬(cmd = "fg".toList ∧ restArgs ≠ []))
    (hfork : o.forkOk = true)
    (hbg : bg = false) :
    dispatchLine o s line =
      ⟨s, [Eff.spawned (expand_globs o.globFn (cmd :: restArgs)) inf outf app false,
           Eff.waited o.newPid], false⟩ := by
  obtain ⟨n1, n2, n3, n4, n5, n6, n7, n8, n9, n10⟩ := hnb
  unfold dispatchLine
  rw [hexp]
  dsimp only
  rw [hparse]
  dsimp only
  rw [if_neg n1, if_neg n2, if_neg n3, if_neg n4, if_neg hfg, if_neg n5, if_neg n6,
    if_neg n7, if_neg n8, if_neg n9, if_neg n10, if_pos hfork, hbg]
  rfl

theorem expand_tilde_plain (home : Option (List Char)) (path : List Char)
    (h : path.head? ≠ some '~') : expand_tilde home path = Except.ok path := by
  cases path with
  | nil => rfl
  | cons c cs =>
    have hc : ¬ c = '~' := fun hh => h (by simp [hh])
    unfold expand_tilde
    dsimp only
    rw [if_neg hc]

theorem spec_expand_globs_no_wild (globFn : List Char → List (List Char))
    (args : List (List Char)) (h : ∀ a ∈ args, hasWild a = false) :
    spec_expand_globs globFn args = args := by
  induction args with
  | nil => rfl
  | cons a rest ih =>
    have ha := h a (by simp)
    have hrest := ih (fun b hb => h b (by simp [hb]))
    simp only [spec_expand_globs, List.flatMap_cons] at hrest ⊢
    rw [ha, hrest]
    rfl

theorem expand_globs_no_wild (globFn : List Char → List (List Char))
    (args : List (List Char)) (h : ∀ a ∈ args, hasWild a = false) :
    expand_globs globFn args = args := by
  unfold expand_globs
  rw [expand_globs_go_plain globFn args
    (fun a ha hc => by rw [h a ha] at hc; exact absurd hc.1 (by simp))]
  rw [spec_expand_globs_no_wild globFn args h]
  rfl

theorem remove_at_eraseIdx (js : List Job) (n : Nat) :
    remove_at js n = js.eraseIdx n := by
  induction js generalizing n with
  | nil => rfl
  | cons j rest ih =>
    cases n with
    | zero => rfl
    | succ m => simp [remove_at, List.eraseIdx, ih]

theorem mainStep_external (o : Oracle) (s : ShellState)
    (line expline cmd : List Char) (restArgs : List (List Char))
    (bg : Bool) (inf outf : Option (List Char)) (app : Bool)
    (hline : line ≠ [])
    (hjobs : ∀ j ∈ s.jobs, o.exited j.pid = false)
    (hexp : expand_alias s.aliases line = expline)
    (hparse : parse_command (tokenize expline) = ⟨cmd :: restArgs, bg, inf, outf, app⟩)
    (hnb : notBuiltin cmd)
    (hfg : ¬(cmd = "fg".toList ∧ restArgs ≠ []))
    (hfork : o.forkOk = true)
    (hbg : bg = false) :
    mainStep o s line =
      ⟨s, [Eff.spawned (expand_globs o.globFn (cmd :: restArgs)) inf outf app false,
           Eff.waited o.newPid], false⟩ := by
  rw [mainStep_nonempty o s line hline, check_bg_none o.exited s.jobs hjobs]
  have hst : ({ s with jobs := ((s.jobs, ([] : List Eff))).1 } : ShellState) = s := rfl
  rw [hst, dispatchLine_external o s line expline cmd restArgs bg inf outf app
    hexp hparse hnb hfg hfork hbg]
  rfl

/-! ## Claim theorems -/

/-- C1, counterexample: on the input line `cat <`, whose final token is the
redirection operator `<` with no following operand, the engine reports no
usage error at all — its effects are exactly an external spawn of `cat`
with no input redirection followed by the foreground wait, and no message
effect occurs.  This refutes the claim's conjunct that "the command
reports a usage error instead of performing redirection". -/
theorem c1_counterexample :
    (mainStep oracle0 state0 "cat <".toList).effs =
      [Eff.spawned ["cat".toList] none none false false, Eff.waited 7] ∧
    (mainStep oracle0 state0 "cat <".toList).effs.filter
      (fun e => match e with | Eff.msg _ => true | _ => false) = [] := by
  decide

/-- C1 (amended): for every input line in which a redirection operator
(`<`, `>`, or `>>`) appears as the final token with no following operand
token, the parser sets the corresponding redirection target to absent
(never a pointer into the consumed operator token's storage), and the
command is executed without any redirection and without reporting a usage
error.  The first conjunct covers the parser for an arbitrary prefix of
non-operator tokens; the second shows the engine on `cat <` spawns `cat`
with no input redirection and emits no message. -/
theorem c1_amended :
    (∀ pre : List (List Char), (∀ t ∈ pre, ¬ isRedirOp t) →
      (parse_command (pre ++ ["<".toList])).infile = none ∧
      (parse_command (pre ++ [">".toList])).outfile = none ∧
      (parse_command (pre ++ [">>".toList])).outfile = none) ∧
    (∀ (s : ShellState) (o : Oracle),
      get_alias_value s.aliases "cat".toList = none →
      (∀ j ∈ s.jobs, o.exited j.pid = false) →
      o.forkOk = true →
      (mainStep o s "cat <".toList).effs =
        [Eff.spawned ["cat".toList] none none false false, Eff.waited o.newPid]) := by
  constructor
  · intro pre hpre
    refine ⟨?_, ?_, ?_⟩
    · rw [parse_command, parseLoop_concat_lt pre hpre]
    · rw [parse_command, parseLoop_concat_gt pre hpre]
    · rw [parse_command, parseLoop_concat_gtgt pre hpre]
  · intro s o h1 h2 h3
    rw [mainStep_external o s "cat <".toList "cat <".toList "cat".toList []
      false none none false (by decide) h2
      (expand_alias_miss s.aliases "cat <".toList "cat".toList "<".toList (by decide) h1)
      (by decide) (by decide) (by decide) h3 rfl]
    rw [expand_globs_no_wild o.globFn ["cat".toList] (by decide)]

/-- C1 witness: the amended theorem applied at a concrete line and state. -/
theorem c1_amended_witness :
    (parse_command (["cat".toList] ++ ["<".toList])).infile = none ∧
    (mainStep oracle0 state0 "cat <".toList).effs =
      [Eff.spawned ["cat".toList] none none false false, Eff.waited 7] :=
  ⟨(c1_amended.1 ["cat".toList] (by decide)).1,
   c1_amended.2 state0 oracle0 (by decide) (by decide) (by decide)⟩

/-- C2, counterexample: with the job table already holding 64 entries,
launching `x &` spawns the process and prints the usual `[64] 7` line, but
the table is unchanged and no `CapacityExceeded` (or any other) error is
reported — `add_job` drops the registration silently.  This refutes the
claim's conjunct that "a CapacityExceeded error is reported to the
user". -/
theorem c2_counterexample :
    (mainStep oracle0 ⟨jobs64, [], "/".toList⟩ "x &".toList).state.jobs = jobs64 ∧
    (mainStep oracle0 ⟨jobs64, [], "/".toList⟩ "x &".toList).effs =
      [Eff.spawned ["x".toList] none none false true,
       Eff.msg "[64] 7".toList] := by
  decide

/-- C2 (amended): for every sequence of register and poll operations, the
Job Table's entry count never exceeds the fixed capacity of 64; a register
call made while the table already holds 64 entries leaves the table
unchanged and is silent (no error is reported), and the spawned process
runs untracked so that its later exit produces no completion notice. -/
theorem c2_amended :
    (∀ (ops : List JobOp) (js : List Job), js.length ≤ MAX_JOBS →
      (runOps ops js).length ≤ MAX_JOBS) ∧
    (∀ (js : List Job) (p : Nat) (c : List Char), js.length = MAX_JOBS →
      add_job js p c = js) ∧
    (∀ (js : List Job) (p : Nat) (c : List Char), js.length = MAX_JOBS →
      (∀ j ∈ js, j.pid ≠ p) →
      (check_background_jobs (fun q => decide (q = p)) (add_job js p c)).2 = []) := by
  refine ⟨runOps_length_le, ?_, ?_⟩
  · intro js p c h
    exact add_job_full js p c (le_of_eq h.symm)
  · intro js p c h hfresh
    rw [add_job_full js p c (le_of_eq h.symm)]
    rw [check_bg_none _ js (fun j hj => by simp [hfresh j hj])]

/-- C2 witness: the amended theorem applied at the full 64-entry table. -/
theorem c2_amended_witness :
    (runOps [JobOp.register 9 "x".toList] jobs64).length ≤ MAX_JOBS ∧
    add_job jobs64 9 "x".toList = jobs64 ∧
    (check_background_jobs (fun q => decide (q = 9)) (add_job jobs64 9 "x".toList)).2 = [] :=
  ⟨c2_amended.1 [JobOp.register 9 "x".toList] jobs64 (by decide),
   c2_amended.2.1 jobs64 9 "x".toList (by decide),
   c2_amended.2.2 jobs64 9 "x".toList (by decide) (by decide)⟩

/-- C3: alias expansion applies exactly once and only to the first token.
First conjunct: whenever the line's first `strtok` token resolves in the
alias table, the expanded line is the alias value spliced verbatim in
place of that token with the remainder of the line appended unmodified,
so its token sequence is the value's tokens followed by the remainder's
tokens.  Second conjunct: with alias `ll` bound to `ls -la`, the input
line `ll /tmp` dispatches exactly the argument vector
`["ls", "-la", "/tmp"]` to the external launch.  Third conjunct: an alias
(`a` bound to `b x`) whose value begins with another alias name (`b`
bound to `c`) is not expanded again — the result keeps the literal `b`. -/
theorem c3_alias_once :
    (∀ (al : List AliasEntry) (line tok rest v : List Char),
      strtok1 line = some (tok, rest) →
      get_alias_value al tok = some v →
      expand_alias al line = (if rest = [] then v else v ++ ' ' :: rest) ∧
      tokenize (expand_alias al line) = tokenize v ++ tokenize rest) ∧
    (∀ (s : ShellState) (o : Oracle),
      s.aliases = [("ll".toList, "ls -la".toList)] →
      (∀ j ∈ s.jobs, o.exited j.pid = false) →
      o.forkOk = true →
      (mainStep o s "ll /tmp".toList).effs =
        [Eff.spawned ["ls".toList, "-la".toList, "/tmp".toList] none none false false,
         Eff.waited o.newPid]) ∧
    (expand_alias [("a".toList, "b x".toList), ("b".toList, "c".toList)] "a y".toList
       = "b x y".toList ∧
     tokenize (expand_alias [("a".toList, "b x".toList), ("b".toList, "c".toList)]
       "a y".toList) = ["b".toList, "x".toList, "y".toList]) := by
  refine ⟨?_, ?_, by decide⟩
  · intro al line tok rest v h1 h2
    have he := expand_alias_hit al line tok rest v h1 h2
    refine ⟨he, ?_⟩
    rw [he]
    by_cases hr : rest = []
    · rw [if_pos hr, hr]
      simp [tokenize, tokenizeAux]
    · rw [if_neg hr, tokenize_append_space]
  · intro s o hal hjobs hfork
    rw [mainStep_external o s "ll /tmp".toList "ls -la /tmp".toList "ls".toList
      ["-la".toList, "/tmp".toList] false none none false (by decide) hjobs
      (by rw [hal]; decide) (by decide) (by decide) (by decide) hfork rfl]
    rw [expand_globs_no_wild o.globFn _ (by decide)]

/-- C3 witness: the theorem applied at the `ll /tmp` example. -/
theorem c3_witness :
    tokenize (expand_alias [("ll".toList, "ls -la".toList)] "ll /tmp".toList) =
      ["ls".toList, "-la".toList, "/tmp".toList] ∧
    (mainStep oracle0 ⟨[], [("ll".toList, "ls -la".toList)], "/".toList⟩
        "ll /tmp".toList).effs =
      [Eff.spawned ["ls".toList, "-la".toList, "/tmp".toList] none none false false,
       Eff.waited 7] :=
  ⟨((c3_alias_once.1 [("ll".toList, "ls -la".toList)] "ll /tmp".toList "ll".toList
      "/tmp".toList "ls -la".toList (by decide) (by decide)).2).trans (by decide),
   c3_alias_once.2.1 ⟨[], [("ll".toList, "ls -la".toList)], "/".toList⟩ oracle0
     rfl (by decide) rfl⟩

/-- C4, counterexample: with `a*` matching `a1` and `b*` matching `b1`,
the argument vector `[cmd, a*, b*]` expands to `[cmd, a1, a1, b1]` — the
second wildcard re-emits the first wildcard's match (the single `glob_t`
is reused with `GLOB_APPEND` and the loop copies its entire contents) —
whereas the claimed behavior (each wildcard replaced by exactly its own
matches in place) yields `[cmd, a1, b1]`.  This refutes the claim for
argument vectors with two matching wildcard tokens. -/
theorem c4_counterexample :
    expand_globs globAB ["cmd".toList, "a*".toList, "b*".toList] =
      ["cmd".toList, "a1".toList, "a1".toList, "b1".toList] ∧
    spec_expand_globs globAB ["cmd".toList, "a*".toList, "b*".toList] =
      ["cmd".toList, "a1".toList, "b1".toList] ∧
    expand_globs globAB ["cmd".toList, "a*".toList, "b*".toList] ≠
      spec_expand_globs globAB ["cmd".toList, "a*".toList, "b*".toList] := by
  decide

/-- C4 (amended): for every argument vector containing at most one
wildcard token with matches, glob expansion replaces each token containing
`*` or `?` by its filesystem matches in order while preserving the
relative position of non-wildcard tokens, and every wildcard token that
matches no files appears literally unchanged at its position (with two or
more matching wildcard tokens the engine re-emits earlier matches, as the
counterexample shows). -/
theorem c4_amended (globFn : List Char → List (List Char))
    (args : List (List Char))
    (h : args.countP (fun a => hasWild a && !(globFn a).isEmpty) ≤ 1) :
    expand_globs globFn args = spec_expand_globs globFn args := by
  unfold expand_globs
  rw [expand_globs_go_single globFn args h []]
  rfl

/-- C4 witness: one matching wildcard, one no-match wildcard, plain tokens. -/
theorem c4_amended_witness :
    expand_globs globAB ["cmd".toList, "a*".toList, "nomatch*".toList] =
      spec_expand_globs globAB ["cmd".toList, "a*".toList, "nomatch*".toList] :=
  c4_amended globAB ["cmd".toList, "a*".toList, "nomatch*".toList] (by decide)

/-- C5: for every `fg <index>` invocation with an index in
`[0, job_count)`, the engine blocks on that job's process (waits on its
pid) and removes exactly that entry from the Job Table; for every index
outside the range it reports `Invalid job ID` and the table is left
unmodified. -/
theorem c5_fg (jobs : List Job) (arg : List Char) :
    (∀ j : Job, 0 ≤ atoi arg → atoi arg < (jobs.length : Int) →
      jobs.get? (atoi arg).toNat = some j →
      fgCommand jobs arg =
        (jobs.eraseIdx (atoi arg).toNat, [Eff.waited j.pid])) ∧
    (¬(0 ≤ atoi arg ∧ atoi arg < (jobs.length : Int)) →
      fgCommand jobs arg = (jobs, [Eff.msg ("Invalid job ID: ".toList ++ arg)])) := by
  constructor
  · intro j h0 hl hget
    unfold fgCommand
    rw [if_pos ⟨h0, hl⟩, remove_at_eraseIdx]
    have : jobs.getD (atoi arg).toNat ⟨0, []⟩ = j := by
      rw [List.getD_eq_getD_get?, hget]
      rfl
    rw [this]
  · intro hout
    unfold fgCommand
    rw [if_neg hout]

/-- C5 witness: in-range and out-of-range `fg` on a two-job table. -/
theorem c5_fg_witness :
    fgCommand [⟨3, "a".toList⟩, ⟨4, "b".toList⟩] "1".toList =
      ([⟨3, "a".toList⟩], [Eff.waited 4]) ∧
    fgCommand [⟨3, "a".toList⟩, ⟨4, "b".toList⟩] "5".toList =
      ([⟨3, "a".toList⟩, ⟨4, "b".toList⟩],
       [Eff.msg ("Invalid job ID: ".toList ++ "5".toList)]) :=
  ⟨((c5_fg [⟨3, "a".toList⟩, ⟨4, "b".toList⟩] "1".toList).1 ⟨4, "b".toList⟩
      (by decide) (by decide) (by decide)).trans (by decide),
   (c5_fg [⟨3, "a".toList⟩, ⟨4, "b".toList⟩] "5".toList).2 (by decide)⟩

/-- C6, counterexample: in an iteration whose input line is empty, the
engine skips the poll entirely although the tracked process (pid 5) has
already exited — no completion notice is printed and the job is not
removed.  This refutes the claim's conjunct that the poll is "performed
once per main-loop iteration". -/
theorem c6_counterexample :
    mainStep oracleExit5 ⟨[⟨5, "sleep 9 &".toList⟩], [], "/".toList⟩ [] =
      ⟨⟨[⟨5, "sleep 9 &".toList⟩], [], "/".toList⟩, [], false⟩ := by
  decide

/-- C6 (amended): the non-blocking poll of the Job Table prints a
completion notice for every job whose process has exited and removes
exactly those jobs, compacting the table so that the relative order of the
remaining jobs is preserved (first conjunct: the poll equals a filter of
the table plus one `[done]` notice per exited job, in order); it is
performed once per main-loop iteration whose input line is non-empty,
before the line is dispatched (second conjunct) — iterations with an empty
line skip the poll. -/
theorem c6_amended :
    (∀ (ex : Nat → Bool) (js : List Job),
      check_background_jobs ex js =
        (js.filter (fun j => !(ex j.pid)),
         (js.filter (fun j => ex j.pid)).map
           (fun j => Eff.msg ("[done] ".toList ++ j.command)))) ∧
    (∀ (o : Oracle) (s : ShellState) (line : List Char), line ≠ [] →
      mainStep o s line =
        ⟨(dispatchLine o { s with jobs := (check_background_jobs o.exited s.jobs).1 } line).state,
         (check_background_jobs o.exited s.jobs).2 ++
           (dispatchLine o { s with jobs := (check_background_jobs o.exited s.jobs).1 } line).effs,
         (dispatchLine o { s with jobs := (check_background_jobs o.exited s.jobs).1 } line).exitLoop⟩) :=
  ⟨check_bg_spec, mainStep_nonempty⟩

/-- C6 witness: the amended theorem at a table with one exited and one
running job, and at a non-empty line (`pwd`) with an exited job. -/
theorem c6_amended_witness :
    check_background_jobs oracleExit5.exited
        [⟨5, "a".toList⟩, ⟨6, "b".toList⟩] =
      ([⟨6, "b".toList⟩], [Eff.msg "[done] a".toList]) ∧
    mainStep oracleExit5 ⟨[⟨5, "a".toList⟩], [], "/".toList⟩ "pwd".toList =
      ⟨⟨[], [], "/".toList⟩,
       [Eff.msg "[done] a".toList, Eff.msg "/".toList], false⟩ := by
  constructor
  · exact (c6_amended.1 oracleExit5.exited
      [⟨5, "a".toList⟩, ⟨6, "b".toList⟩]).trans (by decide)
  · rw [c6_amended.2 oracleExit5 ⟨[⟨5, "a".toList⟩], [], "/".toList⟩
      "pwd".toList (by decide)]
    decide

/-- C7, counterexample: a line consisting of a single tab character —
whitespace under the claim's delimiter set {space, tab} — tokenizes to the
one-element token sequence `[tab]` (the engine's `strtok` delimiter set is
the space character only), and the engine then forks an external process
with that token as the program name.  This refutes the claim's "zero
tokens / no process" conclusion for tab-containing whitespace lines. -/
theorem c7_counterexample :
    tokenize ['\t'] = [['\t']] ∧
    (mainStep oracle0 state0 ['\t']).effs =
      [Eff.spawned [['\t']] none none false false, Eff.waited 7] := by
  decide

/-- C7 (amended): for every input line consisting only of spaces (the
engine's tokenizer delimiter set is the single space character; tab is an
ordinary character), tokenization yields zero tokens and, provided no
background job has exited, the step leaves the state unchanged, creates no
process, and produces no output. -/
theorem c7_amended (o : Oracle) (s : ShellState) (line : List Char)
    (hsp : ∀ c ∈ line, c = ' ')
    (hjobs : ∀ j ∈ s.jobs, o.exited j.pid = false) :
    tokenize line = [] ∧ mainStep o s line = ⟨s, [], false⟩ := by
  refine ⟨tokenize_spaces line hsp, ?_⟩
  by_cases hl : line = []
  · rw [hl]
    rfl
  · rw [mainStep_nonempty o s line hl, check_bg_none o.exited s.jobs hjobs]
    have hst : ({ s with jobs := ((s.jobs, ([] : List Eff))).1 } : ShellState) = s := rfl
    rw [hst]
    have hexp : expand_alias s.aliases line = [] := by
      unfold expand_alias
      rw [strtok1_spaces line hsp]
    have hd : dispatchLine o s line = ⟨s, [], false⟩ := by
      unfold dispatchLine
      rw [hexp]
      rfl
    rw [hd]
    rfl

/-- C7 witness: a three-space line with a tracked (still running) job. -/
theorem c7_amended_witness :
    tokenize "   ".toList = [] ∧
    mainStep oracle0 ⟨[⟨9, "x".toList⟩], [], "/".toList⟩ "   ".toList =
      ⟨⟨[⟨9, "x".toList⟩], [], "/".toList⟩, [], false⟩ :=
  c7_amended oracle0 ⟨[⟨9, "x".toList⟩], [], "/".toList⟩ "   ".toList
    (by decide) (by decide)

/-- C8: the `cd` built-in changes the engine's working directory to the
given path (first conjunct), defaults to `HOME` — via the `~` target and
`expand_tilde` — when no path is given (second conjunct), and on every
path on which the change fails it reports an error and leaves the working
directory unchanged (third conjunct). -/
theorem c8_cd (o : Oracle) (cwd : List Char) :
    (∀ p : List Char, p.head? ≠ some '~' → o.chdirOk p = true →
      cdCommand o cwd (some p) = (p, [])) ∧
    (∀ h : List Char, o.home = some h → h ≠ [] → o.chdirOk h = true →
      cdCommand o cwd none = (h, [])) ∧
    (∀ p : List Char, p.head? ≠ some '~' → o.chdirOk p = false →
      cdCommand o cwd (some p) = (cwd, [Eff.perror "cd".toList])) := by
  refine ⟨?_, ?_, ?_⟩
  · intro p hp hok
    unfold cdCommand
    dsimp only
    rw [Option.getD_some, expand_tilde_plain o.home p hp]
    dsimp only
    rw [hok]
    rfl
  · intro h hh hne hok
    unfold cdCommand
    dsimp only
    rw [Option.getD_none]
    rw [show ("~".toList : List Char) = ['~'] from rfl]
    unfold expand_tilde
    dsimp only
    rw [if_pos rfl, hh]
    dsimp only
    rw [if_neg hne, if_pos rfl]
    dsimp only
    rw [hok]
    rfl
  · intro p hp hok
    unfold cdCommand
    dsimp only
    rw [Option.getD_some, expand_tilde_plain o.home p hp]
    dsimp only
    rw [hok]
    rfl

/-- C8 witness: successful `cd /tmp`, default `cd` to HOME, and a failing
`cd /nope` under an environment whose `chdir` always fails. -/
theorem c8_cd_witness :
    cdCommand oracle0 "/".toList (some "/tmp".toList) = ("/tmp".toList, []) ∧
    cdCommand oracle0 "/".toList none = ("/home/u".toList, []) ∧
    cdCommand { oracle0 with chdirOk := fun _ => false } "/".toList
        (some "/nope".toList) =
      ("/".toList, [Eff.perror "cd".toList]) :=
  ⟨(c8_cd oracle0 "/".toList).1 "/tmp".toList (by decide) rfl,
   (c8_cd oracle0 "/".toList).2.1 "/home/u".toList rfl (by decide) rfl,
   (c8_cd { oracle0 with chdirOk := fun _ => false } "/".toList).2.2
     "/nope".toList (by decide) rfl⟩

/-- C9: alias set is an upsert.  First conjunct: for every name already
present in the alias table — wherever it sits, and with no constraint on
the table's size, so in particular when the table is full — setting it
overwrites that entry's value in place (bounded by the 1024-byte value
field) and reports nothing.  Second conjunct: setting a new name while
the table already holds the fixed slot limit of `MAX_ALIASES` entries
surfaces the capacity error (`Alias limit reached.`) and leaves the table
unchanged. -/
theorem c9_alias_upsert :
    (∀ (pre suf : List AliasEntry) (name v0 value : List Char),
      name ∉ pre.map Prod.fst →
      add_alias (pre ++ (name, v0) :: suf) name value =
        (pre ++ (name, value.take 1023) :: suf, [])) ∧
    (∀ (al : List AliasEntry) (name value : List Char),
      name ∉ al.map Prod.fst → MAX_ALIASES ≤ al.length →
      add_alias al name value = (al, [Eff.msg "Alias limit reached.".toList])) := by
  constructor
  · intro pre suf name v0 value h
    unfold add_alias
    rw [update_alias_found pre suf name v0 value h]
  · intro al name value h hlen
    unfold add_alias
    rw [update_alias_absent al name value h]
    dsimp only
    rw [if_neg (by omega)]

/-- C9 witness: overwrite of the first entry of a full 64-entry table, and
a capacity error when adding a fresh name to it. -/
theorem c9_alias_upsert_witness :
    add_alias ([] ++ ("0".toList, "v".toList) :: aliases64.tail) "0".toList
        "w".toList =
      ([] ++ ("0".toList, ("w".toList).take 1023) :: aliases64.tail, []) ∧
    add_alias aliases64 "zz".toList "w".toList =
      (aliases64, [Eff.msg "Alias limit reached.".toList]) :=
  ⟨c9_alias_upsert.1 [] aliases64.tail "0".toList "v".toList "w".toList
     (by decide),
   c9_alias_upsert.2 aliases64 "zz".toList "w".toList (by decide) (by decide)⟩

/-- C10: an input line whose first token is `fg` with no following
argument token is not treated as a built-in invocation — the dispatch
guard requires `args[1]` — so the line falls through to an external
process launch of a program named `fg`, with no usage or `Invalid job ID`
error produced (the step's effects are exactly the spawn and the
foreground wait). -/
theorem c10_fg_noarg (o : Oracle) (s : ShellState)
    (h1 : get_alias_value s.aliases "fg".toList = none)
    (h2 : ∀ j ∈ s.jobs, o.exited j.pid = false)
    (h3 : o.forkOk = true) :
    mainStep o s "fg".toList =
      ⟨s, [Eff.spawned ["fg".toList] none none false false,
           Eff.waited o.newPid], false⟩ := by
  rw [mainStep_external o s "fg".toList "fg".toList "fg".toList []
    false none none false (by decide) h2
    (expand_alias_miss s.aliases "fg".toList "fg".toList [] (by decide) h1)
    (by decide) (by decide) (by decide) h3 rfl]
  rw [expand_globs_no_wild o.globFn ["fg".toList] (by decide)]

/-- C10 witness: a bare `fg` line in a fresh shell. -/
theorem c10_fg_noarg_witness :
    mainStep oracle0 state0 "fg".toList =
      ⟨state0, [Eff.spawned ["fg".toList] none none false false,
                Eff.waited 7], false⟩ :=
  c10_fg_noarg oracle0 state0 (by decide) (by decide) (by decide)
